import Mathlib

/-!
Verification of the SchemaManager core against its specification.

The definitions below shallowly embed the TypeScript sources:
* `src/src/config/config.ts` (class `Config`): enumerator registry,
  version-marker operations, custom-type resolution, schema file naming,
  aggregation execution;
* the collection processor (class `CollectionProcessor`).

Stateful MongoDB operations are embedded by explicit state passing over a
list-of-documents model of a collection; fallible code returns `Except`.
Definitions marked `Modelled from the spec:` embed program parts whose
source files are not available (the `VersionNumber` and `Version` model
classes); they follow the specification text.
-/

namespace SchemaManager

/-! ## Enumerator registry (Config.constructor lines 35-40, Config.getEnums lines 165-174) -/

/-- One entry of the parsed `enumerators.json` array: a versioned snapshot of
named enumerator categories.  Each category maps to an ordered sequence of
(value, description) pairs, mirroring JavaScript object insertion order. -/
structure Snapshot where
  name : String
  status : String
  version : Nat
  enumerators : List (String × List (String × String))
deriving DecidableEq

/-- The value held by `Config.enumerators` after construction: either the
parsed array from `enumerators.json`, or — when the file does not exist —
the fallback object whose only key is `"enumerators"` (an empty object),
which has no numeric indices. -/
inductive Enumerators where
  | fromFile (snaps : List Snapshot)
  | fallback
deriving DecidableEq

/-- Config.constructor lines 35-40: if `enumerators.json` exists it is parsed
and assigned, otherwise the fallback object is assigned.  No validation of
any kind is performed here. -/
def loadEnumerators (file : Option (List Snapshot)) : Enumerators :=
  match file with
  | some snaps => Enumerators.fromFile snaps
  | none => Enumerators.fallback

/-- Failure modes of `Config.getEnums`:
* `typeError` — JavaScript TypeError from reading `.version` of `undefined`
  (index out of range of the array, or any index into the fallback object);
* `sequenceError` — the explicit `"Invalid Enumerators File bad version
  number sequence"` throw;
* `notFound` — the explicit `"Enumerator does not exist:"` throw. -/
inductive EnumError where
  | typeError
  | sequenceError
  | notFound (name : String)
deriving DecidableEq

/-- JavaScript indexing `this.enumerators[version]`: positional access when
the value is the parsed array; `undefined` (here `none`) when out of range
or when the value is the fallback object, which has no numeric keys. -/
def Enumerators.index : Enumerators → Nat → Option Snapshot
  | Enumerators.fromFile snaps, v => snaps[v]?
  | Enumerators.fallback, _ => none

/-- Config.getEnums lines 165-174: reads `this.enumerators[version].version`
(throwing when the index yields `undefined`), throws the sequence error when
that field differs from `version`, then returns the category via
`hasOwnProperty`, throwing the not-found error when it is absent. -/
def getEnums (e : Enumerators) (version : Nat) (name : String) :
    Except EnumError (List (String × String)) :=
  match e.index version with
  | none => Except.error EnumError.typeError
  | some snap =>
    if snap.version ≠ version then Except.error EnumError.sequenceError
    else
      match snap.enumerators.lookup name with
      | some entries => Except.ok entries
      | none => Except.error (EnumError.notFound name)

/-- Concrete snapshot with version 0. -/
def snapshotV0 : Snapshot :=
  { name := "Enumerations", status := "Active", version := 0,
    enumerators := [("defaultStatus", [("Active", "Not Deleted")])] }

/-- Concrete snapshot with version 1 (the sample data's active snapshot). -/
def snapshotV1 : Snapshot :=
  { name := "Enumerations", status := "Active", version := 1,
    enumerators := [("defaultStatus",
      [("Active", "Not Deleted"), ("Archived", "Soft Delete Indicator")])] }

/-- Concrete snapshot with version 2 (adds a value and a category). -/
def snapshotV2 : Snapshot :=
  { name := "Enumerations", status := "Active", version := 2,
    enumerators := [("defaultStatus",
      [("Draft", "Not Complete"), ("Active", "Not Deleted"),
       ("Archived", "Soft Delete Indicator")]),
      ("roles", [("user", "Simple User"), ("Admin", "Admin User")])] }

/-- Snapshot list with contiguous versions 0, 1, 2. -/
def goodSnapshots : List Snapshot := [snapshotV0, snapshotV1, snapshotV2]

/-- Snapshot list with out-of-order versions 0, 2, 1. -/
def outOfOrderSnapshots : List Snapshot := [snapshotV0, snapshotV2, snapshotV1]

/-- Snapshot list with duplicated versions 0, 0, 1. -/
def duplicateSnapshots : List Snapshot :=
  [snapshotV0, { snapshotV0 with status := "Deprecated" }, snapshotV1]

/-! ## Version marker (Config.setVersion lines 75-86, Config.getVersion lines 88-95) -/

/-- The fields of a collection document that the version-marker operations
touch: the `name` field used by the filter and the `version` payload. -/
structure VersionDoc where
  name : String
  version : String
deriving DecidableEq

/-- MongoDB `findOne` with filter on name VERSION: the first document of the
collection whose `name` field is `"VERSION"`. -/
def findVersionDoc (coll : List VersionDoc) : Option VersionDoc :=
  coll.find? (fun d => d.name == "VERSION")

/-- Config.getVersion lines 88-95: `findOne` for the marker, returning its
`version` field, or the literal `"0.0.0.0"` when no marker document exists. -/
def getVersion (coll : List VersionDoc) : String :=
  match findVersionDoc coll with
  | some doc => doc.version
  | none => "0.0.0.0"

/-- Config.setVersion lines 75-86: MongoDB `updateOne` with filter on name
VERSION, `$set` of the marker fields, and `upsert: true` — it rewrites the
first matching document, or appends the marker when no document matches. -/
def setVersion (coll : List VersionDoc) (versionString : String) : List VersionDoc :=
  match coll with
  | [] => [{ name := "VERSION", version := versionString }]
  | d :: rest =>
    if d.name == "VERSION" then { name := "VERSION", version := versionString } :: rest
    else d :: setVersion rest versionString

/-- Number of marker documents (documents whose `name` field is VERSION). -/
def countMarkers (coll : List VersionDoc) : Nat :=
  coll.countP (fun d => d.name == "VERSION")

/-! ## Custom-type resolution (Config.getType lines 190-201) -/

/-- Config.getType lines 190-201: checks `<msmTypesFolder>/<type>.json`
first, then `<configFolder>/customTypes/<type>.json`, and throws the
"Type Not Found:" error when neither file exists.  A folder is embedded as
an association list from file base name to (opaque) parsed file content. -/
def getType (msmTypes customTypes : List (String × String)) (t : String) :
    Except String String :=
  match msmTypes.lookup t with
  | some content => Except.ok content
  | none =>
    match customTypes.lookup t with
    | some content => Except.ok content
    | none => Except.error ("Type Not Found:" ++ t)

/-! ## VersionNumber and schema file naming (Config.getSchema lines 203-206) -/

/-- Big-endian decimal digit characters of `n`, computed with explicit fuel
so that it reduces structurally; `natDigits` below supplies sufficient fuel. -/
def natDigitsAux : Nat → Nat → List Char
  | 0, _ => []
  | fuel + 1, n =>
    if n < 10 then [Nat.digitChar n]
    else natDigitsAux fuel (n / 10) ++ [Nat.digitChar (n % 10)]

/-- Standard decimal rendering of a natural number as a character list,
matching JavaScript number-to-string conversion for naturals. -/
def natDigits (n : Nat) : List Char := natDigitsAux (n + 1) n

/-- Modelled from the spec: the `VersionNumber` model class
(`src/models/VersionNumber`, imported by config.ts but not available) —
four non-negative integers (major, minor, patch, enumeratorVersion),
immutable once parsed. -/
structure VersionNumber where
  major : Nat
  minor : Nat
  patch : Nat
  enumeratorVersion : Nat
deriving DecidableEq

/-- Joins parts with a dot separator, the concatenation shape of a
dotted-component rendering. -/
def joinDots : List (List Char) → List Char
  | [] => []
  | [part] => part
  | part :: parts => part ++ '.' :: joinDots parts

/-- Modelled from the spec: `VersionNumber.toString` renders all four
components separated by dots. -/
def VersionNumber.getVersionString (v : VersionNumber) : String :=
  String.mk (joinDots
    [natDigits v.major, natDigits v.minor, natDigits v.patch,
     natDigits v.enumeratorVersion])

/-- Modelled from the spec: `VersionNumber.shortForm` renders
`major.minor.patch` (3 components), used to locate the schema file; the
name follows the call `version.getShortVersionString()` in config.ts. -/
def VersionNumber.getShortVersionString (v : VersionNumber) : String :=
  String.mk (joinDots [natDigits v.major, natDigits v.minor, natDigits v.patch])

/-- Config.getSchema lines 203-206: the path of the raw schema document,
`join(configFolder, "schemas", collection + "-" + shortForm + ".json")`. -/
def getSchemaFileName (configFolder collection : String) (version : VersionNumber) :
    String :=
  configFolder ++ "/schemas/" ++ collection ++ "-" ++
    version.getShortVersionString ++ ".json"

/-- Decimal digit characters, written as an explicit ten-way test. -/
def isDigitChar (c : Char) : Bool :=
  c == '0' || c == '1' || c == '2' || c == '3' || c == '4' ||
  c == '5' || c == '6' || c == '7' || c == '8' || c == '9'

/-- Numeric value of a decimal digit character. -/
def digitVal (c : Char) : Nat := c.toNat - 48

/-- Numeric value of a big-endian decimal digit string. -/
def digitsVal (cs : List Char) : Nat :=
  cs.foldl (fun n c => n * 10 + digitVal c) 0

/-- A non-empty all-digit component. -/
def isDigits (cs : List Char) : Bool := !cs.isEmpty && cs.all isDigitChar

/-- Splits a character list at every dot; inverse of `joinDots`. -/
def splitDots : List Char → List (List Char)
  | [] => [[]]
  | c :: rest =>
    match splitDots rest with
    | [] => [[]]
    | part :: parts =>
      if c == '.' then [] :: part :: parts else (c :: part) :: parts

/-- Modelled from the spec: `VersionNumber.parse` — fails with `FormatError`
unless the text is exactly four dot-separated non-negative integers. -/
def parseVersion (text : String) : Except String VersionNumber :=
  match splitDots text.data with
  | [a, b, c, d] =>
    if isDigits a && isDigits b && isDigits c && isDigits d then
      Except.ok
        { major := digitsVal a, minor := digitsVal b,
          patch := digitsVal c, enumeratorVersion := digitsVal d }
    else Except.error "FormatError"
  | _ => Except.error "FormatError"

/-- A component with no spurious leading zero (a single digit, or a longer
digit string not starting with the zero digit). -/
def noLeadingZero : List Char → Bool
  | [] => false
  | [_] => true
  | c :: _ :: _ => c != '0'

/-- A non-empty all-digit component in canonical decimal form. -/
def canonicalDigits (cs : List Char) : Bool := isDigits cs && noLeadingZero cs

/-- Well-formedness per the specification text: exactly four dot-separated
non-negative integers. -/
def isWellFormedVersion (text : String) : Bool :=
  match splitDots text.data with
  | [a, b, c, d] => isDigits a && isDigits b && isDigits c && isDigits d
  | _ => false

/-- Well-formedness with every component in canonical decimal form. -/
def isCanonicalVersion (text : String) : Bool :=
  match splitDots text.data with
  | [a, b, c, d] =>
    canonicalDigits a && canonicalDigits b && canonicalDigits c && canonicalDigits d
  | _ => false

/-! ## Aggregation execution (Config.executeAggregations lines 142-148) -/

/-- Config.executeAggregations lines 142-148: one awaited `aggregate` call
against the storage collaborator; `exec` abstracts whether that call
succeeds, and a failed call raises (returns `false`). -/
def executeAggregations (exec : α → Bool) (pipeline : α) : Bool := exec pipeline

/-- Modelled from the spec: the `Version` model class's aggregation loop
(`runAggregations` in the Migration Step Contract; the `Version` source is
not available) — the version's ordered pipeline list is executed one
pipeline at a time via `executeAggregations`, stopping at the first failed
pipeline, whose raised error aborts the version.  Returns the pipelines
actually executed, in execution order, and whether all of them succeeded. -/
def runAggregations (exec : α → Bool) : List α → List α × Bool
  | [] => ([], true)
  | p :: rest =>
    if executeAggregations exec p then
      let r := runAggregations exec rest
      (p :: r.1, r.2)
    else ([p], false)

/-! ## Collection processor (CollectionProcessor.processCollections) -/

/-- Outcome of one `processCollections` run: which collection files were
processed (attempted), whether the post-loop enumerators write ran, and the
process exit code. -/
structure RunResult where
  processed : List String
  wroteEnumerators : Bool
  exitCode : Nat
deriving DecidableEq

/-- CollectionProcessor.processCollections: iterates the collection files in
order, processing each; the first collection whose processing throws reaches
the catch block, which calls `process.exit(1)`, so later files are never
reached and the post-loop enumerators write does not run.  When every
collection succeeds the post-loop write runs and the process ends normally
with exit code 0.  `ok f` abstracts whether processing collection file `f`
(`Collection.processVersions`) succeeds. -/
def processCollections (ok : String → Bool) : List String → RunResult
  | [] => { processed := [], wroteEnumerators := true, exitCode := 0 }
  | f :: rest =>
    if ok f then
      let r := processCollections ok rest
      { r with processed := f :: r.processed }
    else { processed := [f], wroteEnumerators := false, exitCode := 1 }

/-! ## Theorems -/

/-- Claim C1 (counterexample): with the out-of-order snapshot list
(versions 0, 2, 1) loading succeeds — the constructor performs no
validation — and the lookup at version 0 is answered successfully; only a
later lookup at version 1 raises the sequence error, and likewise for the
duplicated list (versions 0, 0, 1).  So neither list fails at load time
before any lookup is answered, contradicting the claim. -/
theorem loadEnumerators_no_load_validation_cex :
    loadEnumerators (some outOfOrderSnapshots) =
      Enumerators.fromFile outOfOrderSnapshots ∧
    getEnums (loadEnumerators (some outOfOrderSnapshots)) 0 "defaultStatus" =
      Except.ok [("Active", "Not Deleted")] ∧
    getEnums (loadEnumerators (some outOfOrderSnapshots)) 1 "defaultStatus" =
      Except.error EnumError.sequenceError ∧
    getEnums (loadEnumerators (some duplicateSnapshots)) 1 "defaultStatus" =
      Except.error EnumError.sequenceError :=
  ⟨rfl, rfl, rfl, rfl⟩

/-- Claim C1 (amended): the sequence validation `snapshots[i].version == i`
is not performed at load time; it is performed lazily by each lookup, which
raises the sequence error exactly when the looked-up in-range index
violates it.  Hence all lookups into a list with versions 0, 1, 2 pass the
check, while for versions 0, 2, 1 or 0, 0, 1 some lookup raises it. -/
theorem getEnums_sequence_check_is_lazy (snaps : List Snapshot) (v : Nat)
    (c : String) (h : v < snaps.length) :
    (getEnums (loadEnumerators (some snaps)) v c =
        Except.error EnumError.sequenceError) ↔
      (snaps.get ⟨v, h⟩).version ≠ v := by
  simp only [List.get_eq_getElem]
  have hget : snaps[v]? = some snaps[v] := List.getElem?_eq_getElem h
  simp only [getEnums, loadEnumerators, Enumerators.index, hget]
  by_cases hv : snaps[v].version = v
  · rw [if_neg (by simp [hv])]
    cases hlook : (List.lookup c snaps[v].enumerators) <;> simp [hv]
  · rw [if_pos hv]
    simp [hv]

/-- Claim C1 (witness): the amended theorem applied at the out-of-order
list and index 1, where the lazily performed check fails. -/
theorem getEnums_sequence_check_is_lazy_witness :
    (getEnums (loadEnumerators (some outOfOrderSnapshots)) 1 "defaultStatus" =
        Except.error EnumError.sequenceError) ↔
      (outOfOrderSnapshots.get ⟨1, by decide⟩).version ≠ 1 :=
  getEnums_sequence_check_is_lazy outOfOrderSnapshots 1 "defaultStatus" (by decide)

/-- Claim C3: over a contiguously versioned snapshot list, `getEnums v c`
returns exactly the category entry of the snapshot at index v — with no
fallback to or inheritance from earlier snapshots — and fails precisely
when v is out of range (the JavaScript undefined-read failure) or the
category is absent from that exact snapshot (the not-found throw). -/
theorem getEnums_exact_snapshot (snaps : List Snapshot)
    (hcontig : ∀ (i : Nat) (h : i < snaps.length), (snaps.get ⟨i, h⟩).version = i)
    (v : Nat) (c : String) :
    getEnums (loadEnumerators (some snaps)) v c =
      match snaps[v]? with
      | none => Except.error EnumError.typeError
      | some snap =>
        match snap.enumerators.lookup c with
        | some entries => Except.ok entries
        | none => Except.error (EnumError.notFound c) := by
  rcases Nat.lt_or_ge v snaps.length with hlt | hge
  · have hget : snaps[v]? = some snaps[v] := List.getElem?_eq_getElem hlt
    have hv := hcontig v hlt
    rw [List.get_eq_getElem] at hv
    simp [getEnums, loadEnumerators, Enumerators.index, hget, hv]
  · have hget : snaps[v]? = none := List.getElem?_eq_none hge
    simp [getEnums, loadEnumerators, Enumerators.index, hget]

/-- Claim C3 (witness): over the contiguous sample list with versions
0, 1, 2, the lookup at version 1 returns exactly snapshot 1's category. -/
theorem getEnums_exact_snapshot_witness :
    getEnums (loadEnumerators (some goodSnapshots)) 1 "defaultStatus" =
      Except.ok [("Active", "Not Deleted"), ("Archived", "Soft Delete Indicator")] :=
  (getEnums_exact_snapshot goodSnapshots (by decide) 1 "defaultStatus").trans (by rfl)

/-- Claim C10: when the enumerators file is absent the constructor assigns
the fallback object (not an empty snapshot list), and under that fallback
every `getEnums` lookup fails — the numeric index yields undefined and the
read of its version field throws — for every version and every category
name, never a successful return. -/
theorem getEnums_fallback_always_fails :
    loadEnumerators none = Enumerators.fallback ∧
    ∀ (v : Nat) (c : String),
      getEnums (loadEnumerators none) v c = Except.error EnumError.typeError :=
  ⟨rfl, fun _ _ => rfl⟩

/-- Claim C4: a collection holding no marker document yields the literal
string 0.0.0.0 from `getVersion`; when a marker document exists,
`getVersion` returns the found marker document's version field. -/
theorem getVersion_defaults_to_zero (coll : List VersionDoc) :
    ((∀ d ∈ coll, d.name ≠ "VERSION") → getVersion coll = "0.0.0.0") ∧
    (∀ doc, findVersionDoc coll = some doc → getVersion coll = doc.version) := by
  constructor
  · intro hnone
    have hfind : findVersionDoc coll = none := by
      apply List.find?_eq_none.mpr
      intro d hd
      simp [hnone d hd]
    simp [getVersion, hfind]
  · intro doc hdoc
    simp [getVersion, hdoc]

/-- Claim C4 (witness): a collection whose only document is not a marker is
treated as uninitialized. -/
theorem getVersion_defaults_to_zero_witness :
    getVersion [{ name := "other", version := "9.9.9.9" }] = "0.0.0.0" :=
  (getVersion_defaults_to_zero _).1 (by decide)

/-- Claim C5 (counterexample): on a collection state already holding two
marker documents, `setVersion` (updateOne, which rewrites only the first
match) leaves two marker documents, so after the call the collection does
not contain exactly one marker document. -/
theorem setVersion_duplicate_markers_cex :
    countMarkers (setVersion
      [{ name := "VERSION", version := "1.0.0.0" },
       { name := "VERSION", version := "2.0.0.0" }] "3.0.0.0") ≠ 1 := by
  decide

/-- Helper: upsert step when the head document is the marker. -/
theorem setVersion_cons_marker (d : VersionDoc) (rest : List VersionDoc)
    (s : String) (h : d.name = "VERSION") :
    setVersion (d :: rest) s = { name := "VERSION", version := s } :: rest := by
  simp [setVersion, h]

/-- Helper: upsert step when the head document is not the marker. -/
theorem setVersion_cons_other (d : VersionDoc) (rest : List VersionDoc)
    (s : String) (h : d.name ≠ "VERSION") :
    setVersion (d :: rest) s = d :: setVersion rest s := by
  simp [setVersion, h]

/-- Helper: a non-marker head document does not affect `getVersion`. -/
theorem getVersion_cons_other (d : VersionDoc) (rest : List VersionDoc)
    (h : d.name ≠ "VERSION") : getVersion (d :: rest) = getVersion rest := by
  unfold getVersion findVersionDoc
  rw [List.find?_cons_of_neg _ (by simp [h])]

/-- Helper: when the input collection holds at most one marker document,
the upsert leaves exactly one. -/
theorem countMarkers_setVersion (coll : List VersionDoc) (s : String)
    (h : countMarkers coll ≤ 1) : countMarkers (setVersion coll s) = 1 := by
  simp only [countMarkers] at h ⊢
  induction coll with
  | nil => simp [setVersion]
  | cons d rest ih =>
    by_cases hd : d.name = "VERSION"
    · rw [setVersion_cons_marker d rest s hd]
      simp [List.countP_cons, hd] at h
      simp [List.countP_cons]
      exact h
    · rw [setVersion_cons_other d rest s hd]
      simp [List.countP_cons, hd] at h ⊢
      exact ih h

/-- Helper: after the upsert, `getVersion` reads back the string just set,
on every input collection state. -/
theorem getVersion_setVersion (coll : List VersionDoc) (s : String) :
    getVersion (setVersion coll s) = s := by
  induction coll with
  | nil => rfl
  | cons d rest ih =>
    by_cases hd : d.name = "VERSION"
    · rw [setVersion_cons_marker d rest s hd]
      rfl
    · rw [setVersion_cons_other d rest s hd,
        getVersion_cons_other d (setVersion rest s) hd]
      exact ih

/-- Claim C5 (amended): `setVersion` upserts the marker document: on any
state holding at most one marker the result holds exactly one, and on
every state a subsequent `getVersion` returns the string just set.
(updateOne rewrites only the first matching document, so pre-existing
duplicate markers are preserved, not collapsed to one.) -/
theorem setVersion_upsert_singleton (coll : List VersionDoc) (s : String) :
    (countMarkers coll ≤ 1 → countMarkers (setVersion coll s) = 1) ∧
    getVersion (setVersion coll s) = s :=
  ⟨countMarkers_setVersion coll s, getVersion_setVersion coll s⟩

/-- Claim C5 (witness): the amended theorem at a one-marker collection. -/
theorem setVersion_upsert_singleton_witness :
    countMarkers (setVersion [{ name := "VERSION", version := "1.0.0.0" }]
      "3.0.0.0") = 1 ∧
    getVersion (setVersion [{ name := "VERSION", version := "1.0.0.0" }]
      "3.0.0.0") = "3.0.0.0" :=
  ⟨(setVersion_upsert_singleton _ "3.0.0.0").1 (by decide),
   (setVersion_upsert_singleton _ "3.0.0.0").2⟩

/-- Claim C9: `getType` consults the built-in msmTypes folder first and the
configuration's customTypes folder second, so a user-defined custom type
whose name collides with a built-in is shadowed by the built-in
definition; the type-not-found error is raised exactly when the name is
absent from both folders. -/
theorem getType_msmTypes_shadow_customTypes
    (msmTypes customTypes : List (String × String)) (t : String) :
    (∀ b, msmTypes.lookup t = some b →
      getType msmTypes customTypes t = Except.ok b) ∧
    (msmTypes.lookup t = none → ∀ c, customTypes.lookup t = some c →
      getType msmTypes customTypes t = Except.ok c) ∧
    ((∃ e, getType msmTypes customTypes t = Except.error e) ↔
      (msmTypes.lookup t = none ∧ customTypes.lookup t = none)) := by
  refine ⟨?_, ?_, ?_⟩
  · intro b hb
    simp [getType, hb]
  · intro hn c hc
    simp [getType, hn, hc]
  · cases hm : msmTypes.lookup t <;> cases hc : customTypes.lookup t <;>
      simp [getType, hm, hc]

/-- Claim C9 (witness): a name present in both folders resolves to the
built-in content. -/
theorem getType_msmTypes_shadow_customTypes_witness :
    getType [("word", "builtinWord")] [("word", "customWord")] "word" =
      Except.ok "builtinWord" :=
  (getType_msmTypes_shadow_customTypes _ _ _).1 "builtinWord" (by decide)

/-- Claim C6: the raw schema document is located by the 3-component short
form only — the file `<configFolder>/schemas/<collection>-<major>.<minor>.<patch>.json`
— and the 4th version component (the enumerator version, which selects the
snapshot used for preprocessing) does not influence the filename: any two
versions agreeing on major, minor and patch yield the same file name. -/
theorem getSchema_uses_short_form_only (configFolder collection : String)
    (ma mi pa e eAlt : Nat) :
    getSchemaFileName configFolder collection
        { major := ma, minor := mi, patch := pa, enumeratorVersion := e } =
      configFolder ++ "/schemas/" ++ collection ++ "-" ++
        String.mk (natDigits ma ++ '.' :: (natDigits mi ++ '.' :: natDigits pa)) ++
        ".json" ∧
    getSchemaFileName configFolder collection
        { major := ma, minor := mi, patch := pa, enumeratorVersion := e } =
      getSchemaFileName configFolder collection
        { major := ma, minor := mi, patch := pa, enumeratorVersion := eAlt } :=
  ⟨by rfl, rfl⟩

/-- Claim C2: running a version's ordered pipeline list executes the
pipelines one at a time strictly in listed order — the executed list is
always a listed-order prefix — each as an independent aggregation call;
the first pipeline that fails aborts the remaining pipelines (none of the
later pipelines in the list is executed) and the run reports the failure
that aborts the version.  When every pipeline succeeds, all are executed. -/
theorem runAggregations_in_order_first_failure_aborts (exec : α → Bool)
    (ps : List α) :
    ((∀ p ∈ ps, exec p = true) → runAggregations exec ps = (ps, true)) ∧
    (∀ (i : Nat) (hi : i < ps.length), exec (ps.get ⟨i, hi⟩) = false →
      (∀ (j : Nat) (hj : j < i), exec (ps.get ⟨j, Nat.lt_trans hj hi⟩) = true) →
      runAggregations exec ps = (ps.take (i + 1), false)) := by
  constructor
  · intro hall
    induction ps with
    | nil => rfl
    | cons p rest ih =>
      have hp : exec p = true := hall p (List.mem_cons_self p rest)
      have hrest := ih (fun q hq => hall q (List.mem_cons_of_mem p hq))
      simp [runAggregations, executeAggregations, hp, hrest]
  · intro i
    induction ps generalizing i with
    | nil =>
      intro hi
      simp at hi
    | cons p rest ih =>
      intro hi hfail hbefore
      cases i with
      | zero =>
        have hp : exec p = false := hfail
        simp [runAggregations, executeAggregations, hp]
      | succ i =>
        have hp : exec p = true := hbefore 0 (Nat.succ_pos i)
        have hrec := ih i (by simpa using hi) hfail
          (fun j hj => hbefore (j + 1) (Nat.succ_lt_succ hj))
        simp [runAggregations, executeAggregations, hp, hrec]

/-- Claim C2 (witness): with three pipelines of which the second fails,
exactly the first two are executed, in listed order, and the run reports
the failure that aborts the version. -/
theorem runAggregations_in_order_first_failure_aborts_witness :
    runAggregations (fun n : Nat => n != 2) [1, 2, 3] = ([1, 2], false) := by
  have hi : 1 < ([1, 2, 3] : List Nat).length := by decide
  have hfail : (fun n : Nat => n != 2) (([1, 2, 3] : List Nat).get ⟨1, hi⟩) = false := by
    show ((2 : Nat) != 2) = false
    decide
  have hbefore : ∀ (j : Nat) (hj : j < 1),
      (fun n : Nat => n != 2) (([1, 2, 3] : List Nat).get ⟨j, Nat.lt_trans hj hi⟩) = true := by
    intro j hj
    interval_cases j
    show ((1 : Nat) != 2) = true
    decide
  exact (runAggregations_in_order_first_failure_aborts (fun n : Nat => n != 2)
    [1, 2, 3]).2 1 hi hfail hbefore

/-- Claim C7: when some collection's processing raises a fatal error, the
multi-collection run aborts immediately — the processed files are exactly
the listed prefix through the failing one, so no subsequent collection in
the list is processed, and the post-loop enumerators write is skipped —
and the process exits with the non-zero exit code 1. -/
theorem processCollections_abort_on_failure (ok : String → Bool)
    (files : List String) (i : Nat) (hi : i < files.length)
    (hfail : ok (files.get ⟨i, hi⟩) = false)
    (hbefore : ∀ (j : Nat) (hj : j < i),
      ok (files.get ⟨j, Nat.lt_trans hj hi⟩) = true) :
    processCollections ok files =
      { processed := files.take (i + 1), wroteEnumerators := false,
        exitCode := 1 } ∧
    (processCollections ok files).exitCode ≠ 0 := by
  have hmain : processCollections ok files =
      { processed := files.take (i + 1), wroteEnumerators := false,
        exitCode := 1 } := by
    induction files generalizing i with
    | nil => simp at hi
    | cons f rest ih =>
      cases i with
      | zero =>
        have hf : ok f = false := hfail
        simp [processCollections, hf]
      | succ i =>
        have hf : ok f = true := hbefore 0 (Nat.succ_pos i)
        have hrec := ih i (by simpa using hi) hfail
          (fun j hj => hbefore (j + 1) (Nat.succ_lt_succ hj))
        simp [processCollections, hf, hrec]
  refine ⟨hmain, ?_⟩
  rw [hmain]
  simp

/-- Claim C7 (witness): of three collection files where the second fails,
exactly the first two are attempted, the enumerators write is skipped, and
the exit code is 1. -/
theorem processCollections_abort_on_failure_witness :
    processCollections (fun f => f != "bad") ["a", "bad", "c"] =
      { processed := ["a", "bad"], wroteEnumerators := false, exitCode := 1 } := by
  have hi : 1 < (["a", "bad", "c"] : List String).length := by decide
  have hfail : (fun f : String => f != "bad")
      ((["a", "bad", "c"] : List String).get ⟨1, hi⟩) = false := by
    show (("bad" : String) != "bad") = false
    decide
  have hbefore : ∀ (j : Nat) (hj : j < 1),
      (fun f : String => f != "bad")
        ((["a", "bad", "c"] : List String).get ⟨j, Nat.lt_trans hj hi⟩) = true := by
    intro j hj
    interval_cases j
    show (("a" : String) != "bad") = true
    decide
  exact (processCollections_abort_on_failure (fun f => f != "bad")
    ["a", "bad", "c"] 1 hi hfail hbefore).1

/-! ## Digit-string lemmas for the version round-trip -/

/-- Helper: the fuel argument of `natDigitsAux` is irrelevant once it
exceeds the rendered number. -/
theorem natDigitsAux_fuel (f₁ : Nat) : ∀ f₂ n, n < f₁ → n < f₂ →
    natDigitsAux f₁ n = natDigitsAux f₂ n := by
  induction f₁ with
  | zero =>
    intro f₂ n h
    omega
  | succ f ih =>
    intro f₂ n h1 h2
    cases f₂ with
    | zero => omega
    | succ g =>
      simp only [natDigitsAux]
      by_cases hn : n < 10
      · simp [hn]
      · simp only [hn, if_false]
        rw [ih g (n / 10) (by omega) (by omega)]

/-- Helper: the defining recurrence of `natDigits`. -/
theorem natDigits_eq (n : Nat) :
    natDigits n = if n < 10 then [Nat.digitChar n]
      else natDigits (n / 10) ++ [Nat.digitChar (n % 10)] := by
  by_cases h : n < 10
  · simp [natDigits, natDigitsAux, h]
  · have h1 : natDigits n = natDigitsAux n (n / 10) ++ [Nat.digitChar (n % 10)] := by
      simp [natDigits, natDigitsAux, h]
    rw [h1, natDigitsAux_fuel n (n / 10 + 1) (n / 10) (by omega) (by omega), if_neg h]
    rfl

/-- Helper: a digit character round-trips through its numeric value. -/
theorem digitChar_digitVal (c : Char) (h : isDigitChar c = true) :
    Nat.digitChar (digitVal c) = c := by
  simp only [isDigitChar, Bool.or_eq_true, beq_iff_eq] at h
  rcases h with ((((((((h | h) | h) | h) | h) | h) | h) | h) | h) | h <;>
    subst h <;> decide

/-- Helper: a digit character's value is below ten. -/
theorem digitVal_lt_ten (c : Char) (h : isDigitChar c = true) : digitVal c < 10 := by
  simp only [isDigitChar, Bool.or_eq_true, beq_iff_eq] at h
  rcases h with ((((((((h | h) | h) | h) | h) | h) | h) | h) | h) | h <;>
    subst h <;> decide

/-- Helper: a nonzero digit character has a positive value. -/
theorem digitVal_pos (c : Char) (h : isDigitChar c = true) (hz : c ≠ '0') :
    1 ≤ digitVal c := by
  simp only [isDigitChar, Bool.or_eq_true, beq_iff_eq] at h
  rcases h with ((((((((h | h) | h) | h) | h) | h) | h) | h) | h) | h <;>
    subst h <;>
    first
    | exact absurd rfl hz
    | decide

/-- Helper: the folded decimal value never drops below its accumulator. -/
theorem digitsVal_foldl_ge (cs : List Char) : ∀ a : Nat,
    a ≤ cs.foldl (fun n c => n * 10 + digitVal c) a := by
  induction cs with
  | nil =>
    intro a
    exact Nat.le_refl a
  | cons c rest ih =>
    intro a
    refine Nat.le_trans ?_ (ih (a * 10 + digitVal c))
    omega

/-- Helper: a digit string with a nonzero leading digit has positive value. -/
theorem digitsVal_pos (c : Char) (rest : List Char) (h : isDigitChar c = true)
    (hz : c ≠ '0') : 1 ≤ digitsVal (c :: rest) := by
  have h1 : 1 ≤ digitVal c := digitVal_pos c h hz
  have h2 := digitsVal_foldl_ge rest (0 * 10 + digitVal c)
  simp only [digitsVal, List.foldl_cons]
  omega

/-- Helper: value of a digit string extended by one digit. -/
theorem digitsVal_append (ds : List Char) (c : Char) :
    digitsVal (ds ++ [c]) = digitsVal ds * 10 + digitVal c := by
  simp [digitsVal, List.foldl_append]

/-- Helper: rendering recovers a canonical digit string from its value. -/
theorem natDigits_digitsVal (cs : List Char)
    (hd : ∀ x ∈ cs, isDigitChar x = true)
    (hz : noLeadingZero cs = true) : natDigits (digitsVal cs) = cs := by
  induction cs using List.reverseRecOn with
  | nil => simp [noLeadingZero] at hz
  | append_singleton ds c ih =>
    have hc : isDigitChar c = true := hd c (by simp)
    have hds : ∀ x ∈ ds, isDigitChar x = true := fun x hx => hd x (by simp [hx])
    have hdc : digitVal c < 10 := digitVal_lt_ten c hc
    cases ds with
    | nil =>
      have hva : digitsVal [c] = digitVal c := by
        simp [digitsVal, List.foldl_cons]
      rw [List.nil_append, hva, natDigits_eq, if_pos hdc, digitChar_digitVal c hc]
    | cons e ds2 =>
      have he : e ≠ '0' := by
        have hz2 : noLeadingZero (e :: (ds2 ++ [c])) = true := by simpa using hz
        cases ds2 with
        | nil => simpa [noLeadingZero] using hz2
        | cons f ds3 => simpa [noLeadingZero] using hz2
      have hzds : noLeadingZero (e :: ds2) = true := by
        cases ds2 with
        | nil => rfl
        | cons f ds3 =>
          simp only [noLeadingZero, bne_iff_ne, ne_eq, decide_eq_true_eq]
          exact he
      have hedig : isDigitChar e = true := hds e (by simp)
      have hm : 1 ≤ digitsVal (e :: ds2) := digitsVal_pos e ds2 hedig he
      have hih : natDigits (digitsVal (e :: ds2)) = e :: ds2 := ih hds hzds
      rw [digitsVal_append (e :: ds2) c, natDigits_eq,
        if_neg (by omega),
        (by omega : (digitsVal (e :: ds2) * 10 + digitVal c) / 10 = digitsVal (e :: ds2)),
        (by omega : (digitsVal (e :: ds2) * 10 + digitVal c) % 10 = digitVal c),
        hih, digitChar_digitVal c hc]

/-- Helper: the defining cons step of `splitDots`. -/
theorem splitDots_cons (c : Char) (rest : List Char) :
    splitDots (c :: rest) =
      match splitDots rest with
      | [] => [[]]
      | part :: parts =>
        if c == '.' then [] :: part :: parts else (c :: part) :: parts := rfl

/-- Helper: `splitDots` always yields at least one part. -/
theorem splitDots_ne_nil (cs : List Char) : splitDots cs ≠ [] := by
  cases cs with
  | nil => simp [splitDots]
  | cons c rest =>
    rw [splitDots_cons]
    cases hs : splitDots rest with
    | nil =>
      show ([[]] : List (List Char)) ≠ []
      simp
    | cons part parts =>
      show (if c == '.' then [] :: part :: parts else (c :: part) :: parts) ≠ []
      cases h9 : (c == '.') <;> simp [h9]

/-- Helper: joining the dot-split parts reproduces the original text. -/
theorem joinDots_splitDots (cs : List Char) : joinDots (splitDots cs) = cs := by
  induction cs with
  | nil => rfl
  | cons c rest ih =>
    rw [splitDots_cons]
    cases hs : splitDots rest with
    | nil => exact absurd hs (splitDots_ne_nil rest)
    | cons part parts =>
      rw [hs] at ih
      show joinDots
        (if c == '.' then [] :: part :: parts else (c :: part) :: parts) = c :: rest
      cases h9 : (c == '.') with
      | true =>
        have hc : c = '.' := by simpa using h9
        rw [if_pos rfl]
        show '.' :: joinDots (part :: parts) = c :: rest
        rw [ih, hc]
      | false =>
        rw [if_neg (by simp)]
        cases parts with
        | nil =>
          show c :: part = c :: rest
          simp only [joinDots] at ih
          rw [ih]
        | cons q qs =>
          show (c :: part) ++ '.' :: joinDots (q :: qs) = c :: rest
          simp only [joinDots] at ih
          rw [List.cons_append, ih]

/-- Claim C8 (counterexample): the string 0.0.0.00 is four dot-separated
non-negative integers, so parse accepts it, but rendering the parsed value
back yields 0.0.0.0, not the original text, so the round-trip of the claim
fails on this well-formed input. -/
theorem parseVersion_roundTrip_leading_zero_cex :
    isWellFormedVersion "0.0.0.00" = true ∧
    Except.map VersionNumber.getVersionString (parseVersion "0.0.0.00") =
      Except.ok "0.0.0.0" ∧
    "0.0.0.0" ≠ "0.0.0.00" := by
  refine ⟨by decide, by rfl, by decide⟩

/-- Claim C8 (amended): parse accepts exactly the strings of four
dot-separated non-negative integers and fails with FormatError on every
other input; rendering a parsed value back with toString yields the
original string whenever every component is written in canonical decimal
form (no leading zeros).  Parse also accepts components with leading
zeros, and on those the round-trip necessarily fails, since toString
renders canonically (see the counterexample). -/
theorem parseVersion_toString_roundTrip (text : String) :
    (isWellFormedVersion text = false →
      parseVersion text = Except.error "FormatError") ∧
    (isWellFormedVersion text = true → ∃ v, parseVersion text = Except.ok v) ∧
    (isCanonicalVersion text = true →
      Except.map VersionNumber.getVersionString (parseVersion text) =
        Except.ok text) := by
  refine ⟨?_, ?_, ?_⟩
  · intro hwf
    unfold isWellFormedVersion at hwf
    unfold parseVersion
    rcases hsplit : splitDots text.data with
        _ | ⟨a, _ | ⟨b, _ | ⟨c, _ | ⟨d, _ | ⟨e, tail⟩⟩⟩⟩⟩ <;>
      simp only [hsplit] at hwf ⊢ <;> simp [hwf]
  · intro hwf
    unfold isWellFormedVersion at hwf
    rcases hsplit : splitDots text.data with
        _ | ⟨a, _ | ⟨b, _ | ⟨c, _ | ⟨d, _ | ⟨e, tail⟩⟩⟩⟩⟩ <;>
      simp only [hsplit] at hwf <;>
      try exact absurd hwf (by decide)
    refine ⟨{ major := digitsVal a, minor := digitsVal b, patch := digitsVal c,
              enumeratorVersion := digitsVal d }, ?_⟩
    unfold parseVersion
    simp only [hsplit]
    rw [if_pos hwf]
  · intro hcan
    unfold isCanonicalVersion at hcan
    rcases hsplit : splitDots text.data with
        _ | ⟨a, _ | ⟨b, _ | ⟨c, _ | ⟨d, _ | ⟨e, tail⟩⟩⟩⟩⟩ <;>
      simp only [hsplit] at hcan <;>
      try exact absurd hcan (by decide)
    obtain ⟨⟨⟨ha, hb⟩, hc⟩, hd⟩ :
        ((canonicalDigits a = true ∧ canonicalDigits b = true) ∧
          canonicalDigits c = true) ∧ canonicalDigits d = true := by
      simpa [Bool.and_eq_true] using hcan
    have hdig : ∀ cs : List Char, canonicalDigits cs = true →
        (∀ x ∈ cs, isDigitChar x = true) ∧ noLeadingZero cs = true ∧
          isDigits cs = true := by
      intro cs hcs
      simp only [canonicalDigits, Bool.and_eq_true] at hcs
      refine ⟨?_, hcs.2, hcs.1⟩
      have := hcs.1
      simp only [isDigits, Bool.and_eq_true, List.all_eq_true] at this
      exact this.2
    obtain ⟨ha1, ha2, ha3⟩ := hdig a ha
    obtain ⟨hb1, hb2, hb3⟩ := hdig b hb
    obtain ⟨hc1, hc2, hc3⟩ := hdig c hc
    obtain ⟨hd1, hd2, hd3⟩ := hdig d hd
    unfold parseVersion
    simp only [hsplit]
    rw [if_pos (by simp [ha3, hb3, hc3, hd3])]
    show Except.ok (String.mk (joinDots
      [natDigits (digitsVal a), natDigits (digitsVal b),
       natDigits (digitsVal c), natDigits (digitsVal d)])) = Except.ok text
    rw [natDigits_digitsVal a ha1 ha2, natDigits_digitsVal b hb1 hb2,
      natDigits_digitsVal c hc1 hc2, natDigits_digitsVal d hd1 hd2,
      (by rw [← hsplit, joinDots_splitDots] :
        joinDots [a, b, c, d] = text.data)]

/-- Claim C8 (witness): the amended theorem at the canonical string
1.2.3.4, which parses and renders back to itself. -/
theorem parseVersion_toString_roundTrip_witness :
    isCanonicalVersion "1.2.3.4" = true ∧
    Except.map VersionNumber.getVersionString (parseVersion "1.2.3.4") =
      Except.ok "1.2.3.4" :=
  ⟨by decide, (parseVersion_toString_roundTrip "1.2.3.4").2.2 (by decide)⟩

end SchemaManager
